import Mathlib

/-!
Verification development for the `ng-secure-fetch` Angular library
(shared-utils-workspace).  The library transparently encrypts outgoing HTTP
request bodies and decrypts incoming response bodies with a hybrid
RSA-OAEP / AES-GCM scheme.  This file gives a shallow embedding of the
security-relevant logic:

* the endpoint pattern matcher `CryptoService.matchesPattern`;
* the hash-pinning check `CryptoService.verifyPublicKeyHash`;
* the envelope codec `encryptPayload` / `decryptResponsePayload`
  / `createEncryptedEnvelope` / `generateEncryptedHeaders`;
* the HTTP interceptors (`encryptionInterceptor`, `decryptionInterceptor`'s
  success and error paths);
* the key-acquisition initializer (cache / validate / fetch control flow and
  the rxjs `retry` backoff loop).

External platform primitives (WebCrypto AES-GCM and RSA-OAEP, `btoa`/`atob`,
`TextEncoder`/`TextDecoder`) are modelled as an abstract structure
`WebCryptoModel` bundling the inversion laws those primitives guarantee;
`JSON.stringify`/`JSON.parse` are modelled concretely on an inductive `Json`
type so that separator-collision behaviour of the `payload||padding`
convention can be settled exactly.  Randomness (fresh AES keys, IVs, padding)
appears as explicit parameters.
-/

namespace NgSecureFetch

/-! ## List utilities (substring containment, split-on-first-separator)

`containsSub needle hay` is JS `hay.includes(needle)`;
`splitHead sep s` is element 0 of JS `s.split(sep)`, i.e. the text before the
first occurrence of `sep` (the whole string when `sep` does not occur). -/

def containsSub (needle : List Char) : List Char → Bool
  | [] => needle.isEmpty
  | c :: rest => needle.isPrefixOf (c :: rest) || containsSub needle rest

def splitHead (sep : List Char) : List Char → List Char
  | [] => []
  | c :: rest => if sep.isPrefixOf (c :: rest) then [] else c :: splitHead sep rest

/-! ## The endpoint pattern matcher (`CryptoService.matchesPattern`)

Pattern shapes, in the order the source tests them:
`'*'` (match everything); trailing `/*` (containment of the pattern with the
trailing `/*` stripped); patterns containing the `{ignore}` placeholder
(all regex metacharacters in the literal portions are escaped and every
`{ignore}` becomes `[^/]+`, then a search — not full-match — regex test);
otherwise plain substring containment.

The generated regex is `L0[^/]+L1[^/]+...Ln` for literal chunks `Li`; its
search semantics are modelled by `reSearch`: does some suffix of the URL
start with `L0`, then one-or-more non-`'/'` characters, then `L1`, ... -/

mutual

/-- Match the literal chunks anchored at the start of `s`, with `[^/]+` gaps
between consecutive chunks; the remainder of `s` is unconstrained. -/
def reMatch : List (List Char) → List Char → Bool
  | [], _ => true
  | [l], s => l.isPrefixOf s
  | l :: l2 :: rest, s => l.isPrefixOf s && reGap (l2 :: rest) (s.drop l.length)
termination_by parts s => s.length + parts.length

/-- Consume one or more non-`'/'` characters, then continue with `reMatch`
(existential over all split points, i.e. full backtracking). -/
def reGap (parts : List (List Char)) : List Char → Bool
  | [] => false
  | c :: cs => decide (c ≠ '/') && (reMatch parts cs || reGap parts cs)
termination_by s => s.length + parts.length

end

/-- Search version of `reMatch`: succeed at any starting position (JS
`RegExp.prototype.test` without anchors). -/
def reSearch (parts : List (List Char)) : List Char → Bool
  | [] => reMatch parts []
  | c :: cs => reMatch parts (c :: cs) || reSearch parts cs

/-- JS `pattern.endsWith('/*')`. -/
def endsWithSlashStar (p : List Char) : Bool :=
  match p.reverse with
  | c1 :: c2 :: _ => c1 == '*' && c2 == '/'
  | _ => false

/-- One pattern against one URL — the per-pattern rule shared by the include
and skip branches of `matchesPattern` (the source duplicates this block
verbatim in both branches). -/
def patternTest (url : String) (pattern : String) : Bool :=
  if pattern = "*" then true
  else if endsWithSlashStar pattern.data then
    containsSub (pattern.data.dropLast.dropLast) url.data
  else if containsSub ("{ignore}".data) pattern.data then
    reSearch ((pattern.splitOn "{ignore}").map String.data) url.data
  else containsSub pattern.data url.data

/-- `CryptoService.matchesPattern(url, patterns, skipPatterns?)`: if the skip
list is present, non-empty, and some skip pattern matches, return false
immediately; otherwise return whether some include pattern matches. -/
def matchesPattern (url : String) (patterns : List String)
    (skipPatterns : Option (List String)) : Bool :=
  let skipHit :=
    match skipPatterns with
    | some sps => decide (0 < sps.length) && sps.any (fun p => patternTest url p)
    | none => false
  if skipHit then false
  else patterns.any (fun p => patternTest url p)

/-! ## JSON values, `JSON.stringify` and `JSON.parse`

Structured payloads (`Record<string, unknown>` and general response bodies)
are JSON values.  Numbers are modelled as integers (the claims do not hinge
on float formatting).  `stringify` follows `JSON.stringify`: no whitespace,
fields in order, strings quoted with `"`/`\`/newline/tab/CR escaped (other
control characters are passed through rather than `\u`-escaped — the claims
do not exercise them).  `parse` is a recursive-descent parser for exactly
this grammar fragment; like `JSON.parse` it fails on trailing garbage,
unterminated strings and other malformed input. -/

inductive Json where
  | jnull : Json
  | jbool (b : Bool) : Json
  | jnum (n : Int) : Json
  | jstr (s : String) : Json
  | jarr (elems : List Json) : Json
  | jobj (fields : List (String × Json)) : Json
deriving Repr

def escChar (c : Char) : List Char :=
  if c = '"' then ['\\', '"']
  else if c = '\\' then ['\\', '\\']
  else if c = '\n' then ['\\', 'n']
  else if c = '\t' then ['\\', 't']
  else if c = '\r' then ['\\', 'r']
  else [c]

def escStr : List Char → List Char
  | [] => []
  | c :: cs => escChar c ++ escStr cs

/-- A JSON string literal: `"` + escaped body + `"`. -/
def strLit (s : String) : List Char :=
  '"' :: (escStr s.data ++ ['"'])

def digitChar (n : Nat) : Char := Char.ofNat (48 + n)

/-- Decimal digits of a natural number, most significant first. -/
def natChars (n : Nat) : List Char :=
  if _h : n < 10 then [digitChar n]
  else natChars (n / 10) ++ [digitChar (n % 10)]
decreasing_by exact Nat.div_lt_self (by omega) (by omega)

def intChars (i : Int) : List Char :=
  if i < 0 then '-' :: natChars i.natAbs else natChars i.natAbs

mutual

def jsonChars : Json → List Char
  | .jnull => ['n', 'u', 'l', 'l']
  | .jbool true => ['t', 'r', 'u', 'e']
  | .jbool false => ['f', 'a', 'l', 's', 'e']
  | .jnum i => intChars i
  | .jstr s => strLit s
  | .jarr xs => '[' :: (arrChars xs ++ [']'])
  | .jobj fs => '{' :: (objChars fs ++ ['}'])

def arrChars : List Json → List Char
  | [] => []
  | [x] => jsonChars x
  | x :: y :: t => jsonChars x ++ ',' :: arrChars (y :: t)

def objChars : List (String × Json) → List Char
  | [] => []
  | [(k, v)] => strLit k ++ ':' :: jsonChars v
  | (k, v) :: p :: t => strLit k ++ ':' :: jsonChars v ++ ',' :: objChars (p :: t)

end

def Json.stringify (v : Json) : String := String.mk (jsonChars v)

def unescChar (c : Char) : Option Char :=
  if c = '"' then some '"'
  else if c = '\\' then some '\\'
  else if c = 'n' then some '\n'
  else if c = 't' then some '\t'
  else if c = 'r' then some '\r'
  else none

/-- Parse a string-literal body up to the closing quote (the opening quote
has already been consumed); returns the unescaped body and the remainder. -/
def parseStrAux : List Char → Option (List Char × List Char)
  | [] => none
  | c :: rest =>
    if c = '"' then some ([], rest)
    else if c = '\\' then
      match rest with
      | [] => none
      | e :: rest2 =>
        match unescChar e, parseStrAux rest2 with
        | some c2, some (s, r) => some (c2 :: s, r)
        | _, _ => none
    else
      match parseStrAux rest with
      | some (s, r) => some (c :: s, r)
      | none => none

def isDigitCh (c : Char) : Bool := 48 ≤ c.toNat && c.toNat ≤ 57

def digVal (c : Char) : Nat := c.toNat - 48

/-- Consume a maximal run of decimal digits, folding them onto `acc`. -/
def parseNatAux : List Char → Nat → Nat × List Char
  | [], acc => (acc, [])
  | c :: rest, acc =>
    if isDigitCh c then parseNatAux rest (acc * 10 + digVal c)
    else (acc, c :: rest)

/-- Parse an (optionally negated) decimal integer. -/
def parseNum : List Char → Option (Int × List Char)
  | [] => none
  | c :: rest =>
    if c = '-' then
      match rest with
      | [] => none
      | d :: _ =>
        if isDigitCh d then
          let p := parseNatAux rest 0
          some (-(p.1 : Int), p.2)
        else none
    else if isDigitCh c then
      let p := parseNatAux (c :: rest) 0
      some ((p.1 : Int), p.2)
    else none

mutual

def parseVal : Nat → List Char → Option (Json × List Char)
  | 0, _ => none
  | Nat.succ f, s =>
    match s with
    | [] => none
    | c :: rest =>
      if c = 'n' then
        if ['u', 'l', 'l'].isPrefixOf rest then some (.jnull, rest.drop 3) else none
      else if c = 't' then
        if ['r', 'u', 'e'].isPrefixOf rest then some (.jbool true, rest.drop 3) else none
      else if c = 'f' then
        if ['a', 'l', 's', 'e'].isPrefixOf rest then some (.jbool false, rest.drop 4) else none
      else if c = '"' then
        match parseStrAux rest with
        | some (cs, r) => some (.jstr (String.mk cs), r)
        | none => none
      else if c = '[' then
        if rest.head? = some ']' then some (.jarr [], rest.tail)
        else
          match parseElems f rest with
          | some (xs, r) => some (.jarr xs, r)
          | none => none
      else if c = '{' then
        if rest.head? = some '}' then some (.jobj [], rest.tail)
        else
          match parseFields f rest with
          | some (fs, r) => some (.jobj fs, r)
          | none => none
      else
        match parseNum (c :: rest) with
        | some (i, r) => some (.jnum i, r)
        | none => none

def parseElems : Nat → List Char → Option (List Json × List Char)
  | 0, _ => none
  | Nat.succ f, s =>
    match parseVal f s with
    | some (v, r) =>
      if r.head? = some ',' then
        match parseElems f r.tail with
        | some (vs, r3) => some (v :: vs, r3)
        | none => none
      else if r.head? = some ']' then some ([v], r.tail)
      else none
    | none => none

def parseFields : Nat → List Char → Option (List (String × Json) × List Char)
  | 0, _ => none
  | Nat.succ f, s =>
    match s with
    | '"' :: rest =>
      match parseStrAux rest with
      | some (k, r1) =>
        if r1.head? = some ':' then
          match parseVal f r1.tail with
          | some (v, r3) =>
            if r3.head? = some ',' then
              match parseFields f r3.tail with
              | some (fs, r5) => some ((String.mk k, v) :: fs, r5)
              | none => none
            else if r3.head? = some '}' then some ([(String.mk k, v)], r3.tail)
            else none
          | none => none
        else none
      | none => none
    | _ => none

end

/-- `JSON.parse`: parse a value and require the whole input to be consumed. -/
def Json.parse (s : String) : Option Json :=
  match parseVal (s.data.length + 1) s.data with
  | some (v, []) => some v
  | _ => none

/-! ## `Json.parse ∘ Json.stringify = some` -/

/-- The remainder after a number must not begin with a digit, otherwise the
maximal-munch digit scanner would swallow it. -/
def digitGuard (s : List Char) : Prop :=
  ∀ c, s.head? = some c → isDigitCh c = false

theorem digitGuard_nil : digitGuard [] := by
  intro c hc
  simp at hc

theorem digitGuard_cons {c : Char} (rest : List Char) (h : isDigitCh c = false) :
    digitGuard (c :: rest) := by
  intro d hd
  simp at hd
  exact hd ▸ h

theorem isPrefixOf_append_self (l t : List Char) : l.isPrefixOf (l ++ t) = true := by
  induction l with
  | nil => simp [List.isPrefixOf]
  | cons c cs ih => simp [List.isPrefixOf, ih]

theorem parseNatAux_stop (s : List Char) (acc : Nat) (h : digitGuard s) :
    parseNatAux s acc = (acc, s) := by
  cases s with
  | nil => rfl
  | cons c rest => simp [parseNatAux, h c rfl]

theorem digitChar_props (d : Nat) (h : d < 10) :
    isDigitCh (digitChar d) = true ∧ digVal (digitChar d) = d ∧
    digitChar d ≠ 'n' ∧ digitChar d ≠ 't' ∧ digitChar d ≠ 'f' ∧
    digitChar d ≠ '"' ∧ digitChar d ≠ '[' ∧ digitChar d ≠ '{' ∧
    digitChar d ≠ '-' ∧ digitChar d ≠ ']' ∧ digitChar d ≠ '}' := by
  interval_cases d <;>
    refine ⟨by decide, by decide, ?_, ?_, ?_, ?_, ?_, ?_, ?_, ?_, ?_⟩ <;> decide

theorem natChars_head (n : Nat) : ∃ d t, d < 10 ∧ natChars n = digitChar d :: t := by
  induction n using Nat.strong_induction_on with
  | _ n ih =>
    rw [natChars]
    split
    · exact ⟨n, [], by omega, rfl⟩
    · obtain ⟨d, t, hd, ht⟩ := ih (n / 10) (Nat.div_lt_self (by omega) (by omega))
      exact ⟨d, t ++ [digitChar (n % 10)], hd, by rw [ht]; rfl⟩

theorem parseNatAux_natChars (n : Nat) : ∀ acc rest,
    parseNatAux (natChars n ++ rest) acc =
      parseNatAux rest (acc * 10 ^ (natChars n).length + n) := by
  induction n using Nat.strong_induction_on with
  | _ n ih =>
    intro acc rest
    rw [natChars]
    split
    · rename_i h
      obtain ⟨h1, h2, -⟩ := digitChar_props n h
      simp [parseNatAux, h1, h2]
    · rename_i h
      rw [List.append_assoc, List.cons_append, List.nil_append,
        ih (n / 10) (Nat.div_lt_self (by omega) (by omega))]
      obtain ⟨h1, h2, -⟩ := digitChar_props (n % 10) (Nat.mod_lt n (by omega))
      simp only [parseNatAux, h1, if_true, h2]
      congr 1
      simp only [List.length_append, List.length_cons, List.length_nil]
      rw [pow_succ, ← mul_assoc]
      have hdm := Nat.div_add_mod n 10
      generalize acc * 10 ^ (natChars (n / 10)).length = Q
      omega

theorem parseNum_intChars (i : Int) (rest : List Char) (hg : digitGuard rest) :
    parseNum (intChars i ++ rest) = some (i, rest) := by
  have hstop : parseNatAux (natChars i.natAbs ++ rest) 0 = (i.natAbs, rest) := by
    rw [parseNatAux_natChars, parseNatAux_stop rest _ hg]
    simp
  obtain ⟨d, t, hd, ht⟩ := natChars_head i.natAbs
  obtain ⟨h1, -, -, -, -, -, -, -, h9, -, -⟩ := digitChar_props d hd
  unfold intChars
  split
  · rename_i hneg
    have hn : -(i.natAbs : Int) = i := by omega
    rw [List.cons_append, ht, List.cons_append, parseNum.eq_def]
    simp only [h1, if_true, reduceCtorEq]
    rw [← List.cons_append, ← ht, hstop]
    simp only [hn]
  · rename_i hpos
    have hn : (i.natAbs : Int) = i := by omega
    rw [ht, List.cons_append, parseNum.eq_def]
    simp only [h1, if_true, h9, if_false, if_neg h9]
    rw [← List.cons_append, ← ht, hstop]
    simp only [hn]

theorem parseStrAux_escStr (l : List Char) (rest : List Char) :
    parseStrAux (escStr l ++ '"' :: rest) = some (l, rest) := by
  induction l with
  | nil =>
    rw [escStr, List.nil_append, parseStrAux.eq_def]
    simp
  | cons c t ih =>
    rw [escStr, List.append_assoc]
    unfold escChar
    split_ifs with h1 h2 h3 h4 h5
    · subst h1; rw [List.cons_append, List.cons_append, List.nil_append]
      simp [parseStrAux, unescChar, ih]
    · subst h2; simp [parseStrAux, unescChar, ih]
    · subst h3; simp [parseStrAux, unescChar, ih]
    · subst h4; simp [parseStrAux, unescChar, ih]
    · subst h5; simp [parseStrAux, unescChar, ih]
    · rw [List.cons_append, List.nil_append, parseStrAux.eq_def]
      simp [h1, h2, ih]

theorem jsonChars_shape (v : Json) :
    ∃ c t, jsonChars v = c :: t ∧ c ≠ ']' ∧ c ≠ '}' := by
  cases v with
  | jnull => exact ⟨'n', _, rfl, by decide, by decide⟩
  | jbool b => cases b with
    | true => exact ⟨'t', _, rfl, by decide, by decide⟩
    | false => exact ⟨'f', _, rfl, by decide, by decide⟩
  | jnum i =>
    show ∃ c t, intChars i = c :: t ∧ _
    unfold intChars
    split
    · exact ⟨'-', _, rfl, by decide, by decide⟩
    · obtain ⟨d, t, hd, ht⟩ := natChars_head i.natAbs
      obtain ⟨-, -, -, -, -, -, -, -, -, hA, hB⟩ := digitChar_props d hd
      exact ⟨digitChar d, t, ht, hA, hB⟩
  | jstr s => exact ⟨'"', _, rfl, by decide, by decide⟩
  | jarr xs => exact ⟨'[', _, rfl, by decide, by decide⟩
  | jobj fs => exact ⟨'{', _, rfl, by decide, by decide⟩

theorem arrChars_cons_shape (x : Json) (xs : List Json) :
    ∃ c t, arrChars (x :: xs) = c :: t ∧ c ≠ ']' ∧ c ≠ '}' := by
  obtain ⟨c, t, hct, h1, h2⟩ := jsonChars_shape x
  cases xs with
  | nil => exact ⟨c, t, hct, h1, h2⟩
  | cons y ys =>
    refine ⟨c, t ++ ',' :: arrChars (y :: ys), ?_, h1, h2⟩
    rw [arrChars, hct]
    rfl

theorem string_mk_data (s : String) : String.mk s.data = s := rfl

theorem parse_round (fuel : Nat) :
    (∀ v rest, (jsonChars v).length < fuel → digitGuard rest →
        parseVal fuel (jsonChars v ++ rest) = some (v, rest))
    ∧ (∀ x xs rest, (arrChars (x :: xs)).length + 1 < fuel →
        parseElems fuel (arrChars (x :: xs) ++ ']' :: rest) = some (x :: xs, rest))
    ∧ (∀ k v fs rest, (objChars ((k, v) :: fs)).length + 1 < fuel →
        parseFields fuel (objChars ((k, v) :: fs) ++ '}' :: rest) =
          some ((k, v) :: fs, rest)) := by
  induction fuel with
  | zero => exact ⟨fun v rest h => by omega, fun x xs rest h => by omega,
      fun k v fs rest h => by omega⟩
  | succ f ih =>
    obtain ⟨ihV, ihE, ihF⟩ := ih
    refine ⟨?_, ?_, ?_⟩
    · intro v rest hlen hg
      cases v with
      | jnull =>
        rw [show jsonChars .jnull = ['n', 'u', 'l', 'l'] from rfl]
        rw [List.cons_append, parseVal.eq_def]
        simp [isPrefixOf_append_self ['u', 'l', 'l'] rest]
      | jbool b =>
        cases b with
        | true =>
          rw [show jsonChars (.jbool true) = ['t', 'r', 'u', 'e'] from rfl]
          rw [List.cons_append, parseVal.eq_def]
          simp [isPrefixOf_append_self ['r', 'u', 'e'] rest]
        | false =>
          rw [show jsonChars (.jbool false) = ['f', 'a', 'l', 's', 'e'] from rfl]
          rw [List.cons_append, parseVal.eq_def]
          simp [isPrefixOf_append_self ['a', 'l', 's', 'e'] rest]
      | jnum i =>
        rw [show jsonChars (.jnum i) = intChars i from rfl]
        have hp := parseNum_intChars i rest hg
        obtain ⟨d, t, hd, ht⟩ := natChars_head i.natAbs
        have hShape : ∃ c t2, intChars i = c :: t2 ∧ c ≠ 'n' ∧ c ≠ 't' ∧ c ≠ 'f' ∧
            c ≠ '"' ∧ c ≠ '[' ∧ c ≠ '{' := by
          unfold intChars
          split
          · exact ⟨'-', _, rfl, by decide, by decide, by decide, by decide,
              by decide, by decide⟩
          · obtain ⟨hA, hB, hC, hD, hE2, hF2, hG, hH, -⟩ := digitChar_props d hd
            exact ⟨digitChar d, t, ht, hC, hD, hE2, hF2, hG, hH⟩
        obtain ⟨c, t2, hct, n1, n2, n3, n4, n5, n6⟩ := hShape
        rw [hct, List.cons_append, parseVal.eq_def]
        simp only [if_neg n1, if_neg n2, if_neg n3, if_neg n4, if_neg n5, if_neg n6]
        rw [← List.cons_append, ← hct, hp]
      | jstr s =>
        rw [show jsonChars (.jstr s) = strLit s from rfl, strLit,
          List.cons_append, List.append_assoc, List.cons_append, List.nil_append,
          parseVal.eq_def]
        simp only [if_neg (by decide : ¬('"' = 'n')), if_neg (by decide : ¬('"' = 't')),
          if_neg (by decide : ¬('"' = 'f')), if_pos rfl]
        rw [parseStrAux_escStr]
        simp [string_mk_data]
      | jarr xs =>
        cases xs with
        | nil =>
          rw [show jsonChars (.jarr []) = ['[', ']'] from rfl]
          rw [List.cons_append, parseVal.eq_def]
          simp
        | cons x xs =>
          rw [show jsonChars (.jarr (x :: xs)) = '[' :: (arrChars (x :: xs) ++ [']']) from rfl]
          rw [List.cons_append, List.append_assoc, List.cons_append, List.nil_append,
            parseVal.eq_def]
          obtain ⟨c, t, hct, hc1, -⟩ := arrChars_cons_shape x xs
          have hne : (arrChars (x :: xs) ++ ']' :: rest).head? ≠ some ']' := by
            rw [hct, List.cons_append]
            simp [hc1]
          have hlen2 : (arrChars (x :: xs)).length + 1 < f := by
            have : (jsonChars (.jarr (x :: xs))).length =
                (arrChars (x :: xs)).length + 2 := by
              rw [show jsonChars (.jarr (x :: xs)) =
                '[' :: (arrChars (x :: xs) ++ [']']) from rfl]
              simp
            omega
          simp only [parseVal, if_neg hne, ihE x xs rest hlen2]
          simp
      | jobj fs =>
        cases fs with
        | nil =>
          rw [show jsonChars (.jobj []) = ['{', '}'] from rfl]
          rw [List.cons_append, parseVal.eq_def]
          simp
        | cons kv fs =>
          obtain ⟨k, v⟩ := kv
          rw [show jsonChars (.jobj ((k, v) :: fs)) =
            '{' :: (objChars ((k, v) :: fs) ++ ['}']) from rfl]
          rw [List.cons_append, List.append_assoc, List.cons_append, List.nil_append,
            parseVal.eq_def]
          have hne : (objChars ((k, v) :: fs) ++ '}' :: rest).head? ≠ some '}' := by
            cases fs with
            | nil => rw [objChars, strLit]; simp
            | cons p t => rw [objChars, strLit]; simp
          have hlen2 : (objChars ((k, v) :: fs)).length + 1 < f := by
            have : (jsonChars (.jobj ((k, v) :: fs))).length =
                (objChars ((k, v) :: fs)).length + 2 := by
              rw [show jsonChars (.jobj ((k, v) :: fs)) =
                '{' :: (objChars ((k, v) :: fs) ++ ['}']) from rfl]
              simp
            omega
          simp only [parseVal, if_neg hne, ihF k v fs rest hlen2]
          simp
    · intro x xs rest hlen
      cases xs with
      | nil =>
        rw [show arrChars [x] = jsonChars x from rfl] at hlen ⊢
        have hx : (jsonChars x).length < f := by omega
        simp only [parseElems,
          ihV x (']' :: rest) hx (digitGuard_cons rest (by decide))]
        simp
      | cons y ys =>
        simp only [arrChars, List.cons_append, List.append_assoc] at hlen ⊢
        have hx : (jsonChars x).length < f := by
          simp only [List.length_append, List.length_cons] at hlen
          omega
        have hys : (arrChars (y :: ys)).length + 1 < f := by
          simp only [List.length_append, List.length_cons] at hlen
          omega
        simp only [parseElems,
          ihV x (',' :: (arrChars (y :: ys) ++ ']' :: rest)) hx
            (digitGuard_cons _ (by decide)),
          List.head?_cons, List.tail_cons, if_pos rfl, ihE y ys rest hys]
        simp
    · intro k v fs rest hlen
      cases fs with
      | nil =>
        simp only [objChars, strLit, List.cons_append, List.nil_append,
          List.append_assoc] at hlen ⊢
        have hv : (jsonChars v).length < f := by
          simp only [List.length_append, List.length_cons] at hlen
          omega
        simp only [parseFields, parseStrAux_escStr, List.head?_cons,
          List.tail_cons, if_pos rfl,
          ihV v ('}' :: rest) hv (digitGuard_cons rest (by decide))]
        simp [string_mk_data]
      | cons p t =>
        obtain ⟨pk, pv⟩ := p
        simp only [objChars, strLit, List.cons_append, List.nil_append,
          List.append_assoc] at hlen ⊢
        have hv : (jsonChars v).length < f := by
          simp only [List.length_append, List.length_cons] at hlen
          omega
        have ht2 : (objChars ((pk, pv) :: t)).length + 1 < f := by
          simp only [List.length_append, List.length_cons] at hlen
          omega
        simp only [parseFields, parseStrAux_escStr, List.head?_cons,
          List.tail_cons, if_pos rfl,
          ihV v (',' :: (objChars ((pk, pv) :: t) ++ '}' :: rest)) hv
            (digitGuard_cons _ (by decide)),
          ihF pk pv t rest ht2]
        simp [string_mk_data]


/-- Round trip of the JSON codec: parsing the serialization of any value
recovers the value. -/
theorem parse_stringify (v : Json) : Json.parse (Json.stringify v) = some v := by
  unfold Json.parse Json.stringify
  have hdata : (String.mk (jsonChars v)).data = jsonChars v := rfl
  rw [hdata]
  have h := (parse_round ((jsonChars v).length + 1)).1 v [] (by omega) digitGuard_nil
  rw [List.append_nil] at h
  rw [h]

/-! ## The `payload||padding` separator -/

/-- The separator token `'||'` between the serialized payload and the random
padding suffix. -/
def barsSep : List Char := ['|', '|']

theorem barsPrefix_iff (l : List Char) :
    barsSep.isPrefixOf l = true ↔ ∃ t, l = '|' :: '|' :: t := by
  cases l with
  | nil => simp [barsSep, List.isPrefixOf]
  | cons a l2 =>
    cases l2 with
    | nil => simp [barsSep, List.isPrefixOf]
    | cons b l3 =>
      constructor
      · intro h
        simp [barsSep, List.isPrefixOf] at h
        exact ⟨l3, by simp [← h.1, ← h.2]⟩
      · rintro ⟨t, ht⟩
        injection ht with h1 ht2
        injection ht2 with h2 h3
        simp [barsSep, List.isPrefixOf, h1, h2]

/-- If `'||'` does not occur in `pre ++ ['|']` (i.e. neither inside `pre` nor
overlapping its last character), then splitting `pre ++ '||' ++ suf` on the
first occurrence of `'||'` yields exactly `pre`. -/
theorem splitHead_boundary (pre suf : List Char)
    (h : containsSub barsSep (pre ++ ['|']) = false) :
    splitHead barsSep (pre ++ '|' :: '|' :: suf) = pre := by
  induction pre with
  | nil =>
    rw [List.nil_append, splitHead]
    rw [if_pos (by rw [barsPrefix_iff]; exact ⟨suf, rfl⟩)]
  | cons c pre ih =>
    rw [List.cons_append, containsSub, Bool.or_eq_false_iff] at h
    obtain ⟨h1, h2⟩ := h
    have hn : ¬(barsSep.isPrefixOf (c :: (pre ++ '|' :: '|' :: suf)) = true) := by
      intro hcontra
      rw [barsPrefix_iff] at hcontra
      obtain ⟨t, ht⟩ := hcontra
      injection ht with hc ht2
      cases pre with
      | nil =>
        exact (Bool.eq_false_iff.mp h1)
          ((barsPrefix_iff _).mpr ⟨[], by simp [hc]⟩)
      | cons d pre2 =>
        injection ht2 with hd ht3
        exact (Bool.eq_false_iff.mp h1)
          ((barsPrefix_iff _).mpr ⟨pre2 ++ ['|'], by simp [hc, hd]⟩)
    rw [List.cons_append, splitHead, if_neg hn, ih h2]

/-- Appending a `'|'` to a list that ends in a non-bar character cannot
create an occurrence of `'||'`. -/
theorem containsSub_bars_snoc (l : List Char) (c : Char) (hc : c ≠ '|')
    (h : containsSub barsSep (l ++ [c]) = false) :
    containsSub barsSep ((l ++ [c]) ++ ['|']) = false := by
  induction l with
  | nil =>
    simp only [List.nil_append, List.cons_append] at *
    rw [containsSub, Bool.or_eq_false_iff]
    refine ⟨?_, by simp [containsSub, barsSep, List.isPrefixOf]⟩
    rw [Bool.eq_false_iff]
    intro hcontra
    rw [barsPrefix_iff] at hcontra
    obtain ⟨t, ht⟩ := hcontra
    injection ht with h1 _
    exact hc h1
  | cons a l ih =>
    rw [List.cons_append, containsSub, Bool.or_eq_false_iff] at h
    obtain ⟨h1, h2⟩ := h
    rw [List.cons_append, List.cons_append, containsSub, Bool.or_eq_false_iff]
    refine ⟨?_, ih h2⟩
    rw [Bool.eq_false_iff]
    intro hcontra
    rw [barsPrefix_iff] at hcontra
    obtain ⟨t, ht⟩ := hcontra
    injection ht with ha ht2
    cases l with
    | nil =>
      simp only [List.nil_append, List.cons_append] at ht2
      injection ht2 with hcb _
      exact hc hcb
    | cons b l2 =>
      simp only [List.cons_append] at ht2
      injection ht2 with hb ht3
      exact (Bool.eq_false_iff.mp h1)
        ((barsPrefix_iff _).mpr ⟨l2 ++ [c], by simp [ha, hb]⟩)

theorem jsonChars_jobj_snoc (fs : List (String × Json)) :
    jsonChars (Json.jobj fs) = ('{' :: objChars fs) ++ ['}'] := by
  rw [show jsonChars (Json.jobj fs) = '{' :: (objChars fs ++ ['}']) from rfl]
  rfl

/-! ## The external cryptographic primitives

`ArrayBuffer` contents are modelled as `List Char` (a JS "binary string",
one character per byte — exactly the representation
`arrayBufferToBase64`/`base64ToArrayBuffer` shuttle through `btoa`/`atob`).
The structure bundles the operations the source delegates to the platform
(`crypto.subtle`, `btoa`, `atob`, `TextEncoder`/`TextDecoder`) together with
the inversion laws those primitives guarantee.  `atobF` and `aesDecrypt` are
partial because `atob` throws on malformed Base64 and AES-GCM decryption
throws on authentication failure. -/

structure WebCryptoModel where
  aesEncrypt : List Char → List Char → List Char → List Char
  aesDecrypt : List Char → List Char → List Char → Option (List Char)
  rsaWrap : Nat → List Char → List Char
  btoaF : List Char → String
  atobF : String → Option (List Char)
  textEncode : String → List Char
  textDecode : List Char → String
  aes_inv : ∀ k iv d, aesDecrypt k iv (aesEncrypt k iv d) = some d
  b64_inv : ∀ bs, atobF (btoaF bs) = some bs
  text_inv : ∀ s, textDecode (textEncode s) = s

/-- A degenerate but law-abiding instance (identity transport), used to
evaluate the models on concrete inputs. -/
def WId : WebCryptoModel where
  aesEncrypt _ _ d := d
  aesDecrypt _ _ d := some d
  rsaWrap _ d := d
  btoaF bs := String.mk bs
  atobF s := some s.data
  textEncode s := s.data
  textDecode bs := String.mk bs
  aes_inv _ _ _ := rfl
  b64_inv _ := rfl
  text_inv _ := rfl

/-! ## `CryptoService`: envelope codec and hash pinning

Randomness is passed in explicitly: `aesKey` stands for the output of
`generateAESKey` (exported raw), `iv` for `generateIV()`, and `padding` for
`generateRandomString(16, 256)` (a Base64 string, hence free of `'|'`). -/

/-- The `EncryptedPayload` interface: three Base64 fields. -/
structure EncryptedPayload where
  encryptedData : String
  encryptedAesKey : String
  iv : String
deriving Repr, DecidableEq

/-- `CryptoService.encryptPayload`: returns `null` when no public key is
active; otherwise AES-GCM-encrypts `JSON.stringify(payload) + '||' + padding`
and RSA-wraps the raw AES key and IV, Base64-encoding all three. -/
def encryptPayload (W : WebCryptoModel) (publicKey : Option Nat)
    (aesKey iv : List Char) (padding : String) (payload : Json) :
    Option EncryptedPayload :=
  match publicKey with
  | none => none
  | some pk =>
    let payloadString := Json.stringify payload
    let paddedData := payloadString ++ "||" ++ padding
    let encryptedData := W.aesEncrypt aesKey iv (W.textEncode paddedData)
    let encryptedAesKey := W.rsaWrap pk aesKey
    let encryptedIV := W.rsaWrap pk iv
    some { encryptedData := W.btoaF encryptedData
         , encryptedAesKey := W.btoaF encryptedAesKey
         , iv := W.btoaF encryptedIV }

/-- `CryptoService.generateEncryptedHeaders` (GET requests): RSA-wrap a fresh
AES key and IV; `null` when no public key is active. -/
def generateEncryptedHeaders (W : WebCryptoModel) (publicKey : Option Nat)
    (aesKey iv : List Char) : Option (String × String) :=
  match publicKey with
  | none => none
  | some pk => some (W.btoaF (W.rsaWrap pk aesKey), W.btoaF (W.rsaWrap pk iv))

/-- `CryptoService.createEncryptedEnvelope`: the obfuscated `{d, k, s}`
envelope; NOTE the source returns the *original payload* when
`encryptPayload` yields `null` (no active public key). -/
def createEncryptedEnvelope (W : WebCryptoModel) (publicKey : Option Nat)
    (aesKey iv : List Char) (padding : String) (payload : Json) : Json :=
  match encryptPayload W publicKey aesKey iv padding payload with
  | none => payload
  | some ep =>
    Json.jobj [("d", Json.jstr ep.encryptedData),
               ("k", Json.jstr ep.encryptedAesKey),
               ("s", Json.jstr ep.iv)]

/-- `CryptoService.decryptResponsePayload`: Base64-decode body/key/IV, import
the raw AES key, AES-GCM-decrypt, split on the first `'||'`, JSON-parse the
prefix.  Any thrown error (bad Base64, GCM auth failure, malformed JSON)
makes the promise reject, modelled by `none`. -/
def decryptResponsePayload (W : WebCryptoModel)
    (encryptedData aesKeyBase64 ivBase64 : String) : Option Json :=
  match W.atobF encryptedData, W.atobF aesKeyBase64, W.atobF ivBase64 with
  | some encryptedBytes, some aesKeyBytes, some ivBytes =>
    match W.aesDecrypt aesKeyBytes ivBytes encryptedBytes with
    | some decryptedBuffer =>
      let decryptedWithPadding := W.textDecode decryptedBuffer
      let actualData := String.mk (splitHead barsSep decryptedWithPadding.data)
      Json.parse actualData
    | none => none
  | _, _, _ => none

/-! ## Hash pinning (`CryptoService.verifyPublicKeyHash`)

The SHA-256 digest itself is an external primitive (`crypto.subtle.digest`),
passed in as `sha256 : String → List Nat` returning the digest bytes
(each `< 256`); the hex encoding
(`hashArray.map(b => b.toString(16).padStart(2, '0')).join('')`) is source
code and is modelled concretely. -/

def hexChar (n : Nat) : Char :=
  if n < 10 then Char.ofNat (48 + n) else Char.ofNat (87 + n)

/-- `b.toString(16).padStart(2, '0')` for a byte `b < 256`. -/
def byteToHexPad (b : Nat) : String := String.mk [hexChar (b / 16), hexChar (b % 16)]

def bytesToHex (bs : List Nat) : String := String.join (bs.map byteToHexPad)

/-- The placeholder value the source substitutes for a missing pin. -/
def PLACEHOLDER_HASH : String := "REPLACE_WITH_YOUR_PUBLIC_KEY_HASH"

/-- `CryptoService.verifyPublicKeyHash`: `expectedHash` is the configured pin
or, when that is absent or empty (JS falsy `||`), the placeholder; a
placeholder pin always fails; otherwise compare the lowercase hex digest
against the pin, case-sensitively. -/
def verifyPublicKeyHash (sha256 : String → List Nat)
    (expectedOpt : Option String) (pemKey : String) : Bool :=
  let expectedHash :=
    match expectedOpt with
    | some h => if h = "" then PLACEHOLDER_HASH else h
    | none => PLACEHOLDER_HASH
  let hashHex := bytesToHex (sha256 pemKey)
  if expectedHash = PLACEHOLDER_HASH then false
  else decide (hashHex = expectedHash)

theorem string_data_append (a b : String) : (a ++ b).data = a.data ++ b.data := rfl

/-! ## Claim C1: envelope round trip -/

/-- C1 (amended).  For every structured payload `P` (a JSON object) whose JSON
serialization does not contain the separator token `'||'`, and every crypto
provider, active public key, AES key, IV and padding string,
`decryptResponsePayload` applied to the AES-GCM ciphertext produced by
`encryptPayload(P)` — with the same AES key and IV supplied raw
(Base64, unwrapped) — returns an object deep-equal to `P`.  (As stated for
*every* payload the claim is false: a payload whose serialization contains
`'||'`, e.g. a string field with value `"x||y"`, is truncated at the first
separator occurrence and fails to parse; see the counterexample.)
-/
theorem claim_C1_roundtrip (W : WebCryptoModel) (pk : Nat) (aesKey iv : List Char)
    (padding : String) (fs : List (String × Json))
    (hsep : containsSub barsSep (jsonChars (Json.jobj fs)) = false) :
    ∃ ep, encryptPayload W (some pk) aesKey iv padding (Json.jobj fs) = some ep ∧
      decryptResponsePayload W ep.encryptedData (W.btoaF aesKey) (W.btoaF iv) =
        some (Json.jobj fs) := by
  refine ⟨_, rfl, ?_⟩
  show decryptResponsePayload W
      (W.btoaF (W.aesEncrypt aesKey iv
        (W.textEncode (Json.stringify (Json.jobj fs) ++ "||" ++ padding))))
      (W.btoaF aesKey) (W.btoaF iv) = some (Json.jobj fs)
  unfold decryptResponsePayload
  rw [W.b64_inv, W.b64_inv, W.b64_inv]
  simp only [W.aes_inv, W.text_inv]
  have hdata : (Json.stringify (Json.jobj fs) ++ "||" ++ padding).data
      = jsonChars (Json.jobj fs) ++ '|' :: '|' :: padding.data := by
    rw [string_data_append, string_data_append]
    have h1 : (Json.stringify (Json.jobj fs)).data = jsonChars (Json.jobj fs) := rfl
    have h2 : ("||" : String).data = ['|', '|'] := rfl
    rw [h1, h2, List.append_assoc]
    rfl
  rw [hdata]
  have hnobar : containsSub barsSep (jsonChars (Json.jobj fs) ++ ['|']) = false := by
    rw [jsonChars_jobj_snoc] at hsep ⊢
    exact containsSub_bars_snoc _ '}' (by decide) hsep
  rw [splitHead_boundary _ _ hnobar]
  exact parse_stringify (Json.jobj fs)

/-- C1 (counterexample to the claim as stated).  With the payload
`{"a": "x||y"}` — whose serialization contains `'||'` inside a string
field — opening the sealed envelope does not return the payload: the
decrypted text is split at the first `'||'`, leaving the unparseable prefix
`{"a":"x`, so `decryptResponsePayload` rejects (`none`) instead of returning
the payload.
-/
theorem claim_C1_counterexample :
    (encryptPayload WId (some 0) ['k'] ['i'] "PAD"
        (Json.jobj [("a", Json.jstr "x||y")])).bind
      (fun ep => decryptResponsePayload WId ep.encryptedData
        (WId.btoaF ['k']) (WId.btoaF ['i'])) = none := by
  rfl

/-- Witness for `claim_C1_roundtrip` at a concrete separator-free payload. -/
theorem claim_C1_roundtrip_witness :
    ∃ ep, encryptPayload WId (some 0) ['k'] ['i'] "PAD"
        (Json.jobj [("a", Json.jstr "hello")]) = some ep ∧
      decryptResponsePayload WId ep.encryptedData (WId.btoaF ['k'])
        (WId.btoaF ['i']) = some (Json.jobj [("a", Json.jstr "hello")]) :=
  claim_C1_roundtrip WId 0 ['k'] ['i'] "PAD" [("a", Json.jstr "hello")] (by rfl)

/-! ## Claim C4: hash pinning -/

/-- C4.  For every digest primitive, configured pin and PEM string:
(1) with a pin `h` that is present, non-empty and not the placeholder,
`verifyPublicKeyHash` succeeds iff the hex encoding of `SHA-256(pem)`
equals `h`; (2) with no pin configured — absent, empty, or left as the
placeholder — validation returns `false` regardless of the key (fail
closed).
-/
theorem claim_C4_hash_pinning (sha256 : String → List Nat)
    (expectedOpt : Option String) (pem : String) :
    (∀ h, expectedOpt = some h → h ≠ "" → h ≠ PLACEHOLDER_HASH →
      (verifyPublicKeyHash sha256 expectedOpt pem = true ↔
        bytesToHex (sha256 pem) = h)) ∧
    ((expectedOpt = none ∨ expectedOpt = some "" ∨
        expectedOpt = some PLACEHOLDER_HASH) →
      verifyPublicKeyHash sha256 expectedOpt pem = false) := by
  constructor
  · intro h hsome hne hph
    subst hsome
    simp [verifyPublicKeyHash, hne, hph]
  · rintro (rfl | rfl | rfl) <;> simp [verifyPublicKeyHash]

/-- Witness for `claim_C4_hash_pinning`: a pin equal to the digest's hex
encoding validates; an absent pin fails. -/
theorem claim_C4_hash_pinning_witness :
    verifyPublicKeyHash (fun _ => [170, 5]) (some "aa05") "PEM" = true ∧
    verifyPublicKeyHash (fun _ => [170, 5]) none "PEM" = false := by
  constructor
  · exact ((claim_C4_hash_pinning (fun _ => [170, 5]) (some "aa05") "PEM").1
      "aa05" rfl (by decide) (by decide)).mpr (by rfl)
  · exact (claim_C4_hash_pinning (fun _ => [170, 5]) none "PEM").2 (Or.inl rfl)

/-! ## Configuration (`SecurityConfig`) and JS value semantics

The interceptors receive the config through optional injection
(`config : Option SecurityConfig`); absent fields are `none`.  The helpers
mirror JS truthiness: `config?.x || default` treats `undefined` *and* the
empty string as falsy. -/

structure SecurityConfig where
  enableEncryption : Option Bool
  publicKeyEndpoint : Option String
  publicKey : Option String
  expectedPublicKeyHash : Option String
  encryptDecryptForEndpoints : Option (List String)
  skipEncryptDecryptForEndpoints : Option (List String)
  publicKeyHeaderName : Option String
  aesKeyHeaderName : Option String
  ivHeaderName : Option String
  enableDebugLogging : Option Bool
  publicKeyFetchRetries : Option Nat

/-- A wholly-unset configuration (every optional field absent). -/
def cfgUnset : SecurityConfig :=
  ⟨none, none, none, none, none, none, none, none, none, none, none⟩

def DEFAULT_PUBLIC_KEY_HEADER_NAME : String := "X-Client-Init"
def DEFAULT_AES_KEY_HEADER_NAME : String := "X-Request-Context"
def DEFAULT_IV_HEADER_NAME : String := "X-Client-Ref"

/-- JS `o || d` for an optional string: `undefined` and `""` yield `d`. -/
def strOr (o : Option String) (d : String) : String :=
  match o with
  | some s => if s = "" then d else s
  | none => d

def cfgEnableEncryption (cfg : Option SecurityConfig) : Option Bool :=
  cfg.bind (fun c => c.enableEncryption)

/-- `config?.encryptDecryptForEndpoints || ['*']` (an *empty* list is truthy
in JS and is kept as-is; only `undefined` falls back to `['*']`). -/
def encPatterns (cfg : Option SecurityConfig) : List String :=
  (cfg.bind (fun c => c.encryptDecryptForEndpoints)).getD ["*"]

def skipPatternsOf (cfg : Option SecurityConfig) : Option (List String) :=
  cfg.bind (fun c => c.skipEncryptDecryptForEndpoints)

def aesHdrName (cfg : Option SecurityConfig) : String :=
  strOr (cfg.bind (fun c => c.aesKeyHeaderName)) DEFAULT_AES_KEY_HEADER_NAME

def ivHdrName (cfg : Option SecurityConfig) : String :=
  strOr (cfg.bind (fun c => c.ivHeaderName)) DEFAULT_IV_HEADER_NAME

/-- `config?.publicKeyEndpoint && req.url === config.publicKeyEndpoint`
(an empty endpoint string is falsy, so it never short-circuits). -/
def pkEndpointHit (cfg : Option SecurityConfig) (url : String) : Bool :=
  match cfg.bind (fun c => c.publicKeyEndpoint) with
  | some ep => decide (ep ≠ "") && decide (url = ep)
  | none => false

/-- JS truthiness of a JSON value. -/
def jsTruthy : Json → Bool
  | .jnull => false
  | .jbool b => b
  | .jnum n => decide (n ≠ 0)
  | .jstr s => decide (s ≠ "")
  | .jarr _ => true
  | .jobj _ => true

/-- `typeof x === 'object'` for a JSON value (`typeof null` is `'object'`). -/
def jsTypeObject : Json → Bool
  | .jnull => true
  | .jarr _ => true
  | .jobj _ => true
  | .jbool _ => false
  | .jnum _ => false
  | .jstr _ => false

mutual

/-- JS `String(x)` coercion of a JSON value (arrays join their elements with
commas, `null` elements becoming empty; objects print `[object Object]`). -/
def jsStringOf : Json → String
  | .jstr s => s
  | .jnull => "null"
  | .jbool true => "true"
  | .jbool false => "false"
  | .jnum n => String.mk (intChars n)
  | .jarr xs => jsArrStr xs
  | .jobj _ => "[object Object]"

def jsArrStr : List Json → String
  | [] => ""
  | [x] => jsElemStr x
  | x :: y :: t => jsElemStr x ++ "," ++ jsArrStr (y :: t)

def jsElemStr : Json → String
  | .jnull => ""
  | v => jsStringOf v

end

/-- `HttpHeaders.get(name)`: the stored value or `null`. -/
def headerGet (hs : List (String × String)) (nm : String) : Option String :=
  (hs.find? (fun kv => kv.1 == nm)).map (fun kv => kv.2)

/-- `headers.get(name) || headers.get(name.toLowerCase())` — the JS `||`
also sends an empty-string first lookup to the lowercase fallback. -/
def headerFirst (hs : List (String × String)) (nm : String) : Option String :=
  match headerGet hs nm with
  | some v => if v = "" then headerGet hs nm.toLower else some v
  | none => headerGet hs nm.toLower

/-! ## The encryption interceptor (request path) -/

structure HttpReq where
  url : String
  method : String
  body : Option Json
  headers : List (String × String)
deriving Repr

def setHdr (hs : List (String × String)) (nm v : String) : List (String × String) :=
  match hs with
  | [] => [(nm, v)]
  | kv :: t => if kv.1 = nm then (nm, v) :: t else kv :: setHdr t nm v

/-- `HttpRequest.clone({body, setHeaders})`: Angular keeps the original body
when the `body` update is `undefined` (`update.body !== undefined ?
update.body : this.body`). -/
def cloneReq (req : HttpReq) (bodyUpdate : Option Json)
    (hdrs : List (String × String)) : HttpReq :=
  { req with
    body := match bodyUpdate with
            | some b => some b
            | none => req.body,
    headers := hdrs.foldl (fun acc kv => setHdr acc kv.1 kv.2) req.headers }

/-- JS property access `obj[name]` on a parsed JSON value: a field lookup for
objects, `undefined` otherwise. -/
def jsonField (j : Json) (nm : String) : Option Json :=
  match j with
  | .jobj fs => (fs.find? (fun kv => kv.1 == nm)).map (fun kv => kv.2)
  | _ => none

/-- `envelope['k'] as string` used as a header value: a string passes as-is,
anything else is carried through JS string coercion. -/
def hdrValOf : Option Json → String
  | some (.jstr s) => s
  | some v => jsStringOf v
  | none => "undefined"

/-- `!req.body || typeof req.body !== 'object'`. -/
def bodyFalsyOrNonObject : Option Json → Bool
  | none => true
  | some b => !jsTruthy b || !jsTypeObject b

/-- `encryptionInterceptor`: the request that reaches the transport
(`next`).  `publicKey` is the `CryptoService` key slot; `aesKey`, `iv`,
`padding` stand for the randomness drawn during the call. -/
def encryptionInterceptor (W : WebCryptoModel) (cfg : Option SecurityConfig)
    (publicKey : Option Nat) (aesKey iv : List Char) (padding : String)
    (req : HttpReq) : HttpReq :=
  if cfgEnableEncryption cfg = some false then req
  else if matchesPattern req.url (encPatterns cfg) (skipPatternsOf cfg) = false then req
  else if pkEndpointHit cfg req.url then req
  else if req.method = "GET" then
    match generateEncryptedHeaders W publicKey aesKey iv with
    | none => req
    | some (ek, eiv) => cloneReq req none [(aesHdrName cfg, ek), (ivHdrName cfg, eiv)]
  else if bodyFalsyOrNonObject req.body then req
  else if req.method = "DELETE" || req.method = "HEAD" || req.method = "OPTIONS" then req
  else
    let payload := req.body.getD Json.jnull
    let envelope := createEncryptedEnvelope W publicKey aesKey iv padding payload
    cloneReq req (jsonField envelope "d")
      [("Content-Type", "text/plain"),
       (aesHdrName cfg, hdrValOf (jsonField envelope "k")),
       (ivHdrName cfg, hdrValOf (jsonField envelope "s"))]

/-! ## Claim C2: readiness gating -/

/-- C2 (evaluation of the code at the failing input).  With encryption enabled
(config defaults), a matching URL, and *no active public key* (the key
lifecycle has not reached `Ready`), a POST carrying the object body
`{"x": "secret"}` is forwarded to the transport with its plaintext body
intact, rather than waiting for readiness or failing as a protocol error:
`encryptPayload` returns `null`, so `createEncryptedEnvelope` falls back to
the original payload, the interceptor reads its absent `'d'` field, and the
clone keeps the original body.
-/
theorem claim_C2_unencrypted_forward :
    (encryptionInterceptor WId none none ['k'] ['i'] "PAD"
      { url := "/api/data", method := "POST",
        body := some (Json.jobj [("x", Json.jstr "secret")]), headers := [] }).body
      = some (Json.jobj [("x", Json.jstr "secret")]) := by
  rfl

/-! ## Claim C10: non-object bodies pass through unchanged -/

/-- C10.  For every POST/PUT/PATCH request on a URL matching the include
patterns (and no skip pattern), if the body is absent or not of object type
(e.g. a pre-serialized JSON string or plain text), the encryption
interceptor forwards the request completely unchanged — no sealing, no
encryption headers, no content-type change.
-/
theorem claim_C10_nonobject_passthrough (W : WebCryptoModel)
    (cfg : Option SecurityConfig) (publicKey : Option Nat)
    (aesKey iv : List Char) (padding : String) (req : HttpReq)
    (hm : req.method = "POST" ∨ req.method = "PUT" ∨ req.method = "PATCH")
    (_hmatch : matchesPattern req.url (encPatterns cfg) (skipPatternsOf cfg) = true)
    (hb : req.body = none ∨ ∃ b, req.body = some b ∧ jsTypeObject b = false) :
    encryptionInterceptor W cfg publicKey aesKey iv padding req = req := by
  have hget : ¬(req.method = "GET") := by
    rcases hm with h | h | h <;> simp [h]
  have hbody : bodyFalsyOrNonObject req.body = true := by
    rcases hb with h | ⟨b, hb1, hb2⟩
    · simp [h, bodyFalsyOrNonObject]
    · rw [hb1, bodyFalsyOrNonObject]
      simp [hb2]
  unfold encryptionInterceptor
  split_ifs with h1 h2 h3 <;> rfl

/-- Witness for `claim_C10_nonobject_passthrough`: a POST with a
pre-serialized string body is forwarded untouched. -/
theorem claim_C10_witness :
    encryptionInterceptor WId none none ['k'] ['i'] "P"
      { url := "/a", method := "POST", body := some (Json.jstr "text"),
        headers := [] } =
      { url := "/a", method := "POST", body := some (Json.jstr "text"),
        headers := [] } :=
  claim_C10_nonobject_passthrough WId none none ['k'] ['i'] "P" _
    (Or.inl rfl) (by rfl) (Or.inr ⟨Json.jstr "text", rfl, rfl⟩)

/-! ## The decryption interceptor — success path (`decryptResponse`) -/

structure SuccessResp where
  headers : List (String × String)
  body : Option Json
deriving Repr

inductive RespOutcome where
  | pass : RespOutcome
  | replaced (newBody : Json) : RespOutcome
  | errored : RespOutcome
deriving Repr

/-- `event.body as string` fed to `decryptResponsePayload` (a TypeScript
assertion, not a conversion: a non-string body reaches `atob` through JS
string coercion). -/
def bodyCastStr : Json → String
  | .jstr s => s
  | v => jsStringOf v

/-- The `decryptResponse` helper for successful responses: if either raw
key/IV header is missing (or empty) or the body is falsy, return the event
untouched (`of(event)`); otherwise decrypt and replace the body (`pass` when
the decrypted value is falsy, `errored` when the promise rejects). -/
def decryptResponse (W : WebCryptoModel) (cfg : Option SecurityConfig)
    (event : SuccessResp) : RespOutcome :=
  match headerFirst event.headers (aesHdrName cfg),
      headerFirst event.headers (ivHdrName cfg), event.body with
  | some aes, some iv, some b =>
    if aes = "" || iv = "" || !jsTruthy b then .pass
    else
      match decryptResponsePayload W (bodyCastStr b) aes iv with
      | some d => if jsTruthy d then .replaced d else .pass
      | none => .errored
  | _, _, _ => .pass

/-! ## Claim C9: header/body absence is not an error -/

/-- C9.  For every successful response, if either of the two raw key/IV headers
is absent or the response body is empty or absent, the response-opening step
does not fail and the response passes through with its body unmodified (the
exchange is treated as "not encrypted", not as a decryption error).
-/
theorem claim_C9_absence_passthrough (W : WebCryptoModel)
    (cfg : Option SecurityConfig) (event : SuccessResp)
    (h : headerFirst event.headers (aesHdrName cfg) = none ∨
         headerFirst event.headers (ivHdrName cfg) = none ∨
         event.body = none ∨ event.body = some (Json.jstr "")) :
    decryptResponse W cfg event = RespOutcome.pass := by
  unfold decryptResponse
  rcases hA : headerFirst event.headers (aesHdrName cfg) with _ | aes
  · rfl
  · rcases hB : headerFirst event.headers (ivHdrName cfg) with _ | iv
    · rfl
    · rcases hEB : event.body with _ | b
      · rfl
      · rcases h with h | h | h | h
        · rw [hA] at h; cases h
        · rw [hB] at h; cases h
        · rw [hEB] at h; cases h
        · rw [hEB] at h
          injection h with h
          subst h
          simp [jsTruthy]

/-- Witness for `claim_C9_absence_passthrough`: no headers at all. -/
theorem claim_C9_witness :
    decryptResponse WId none { headers := [], body := some (Json.jstr "x") } =
      RespOutcome.pass :=
  claim_C9_absence_passthrough WId none
    { headers := [], body := some (Json.jstr "x") } (Or.inl (by rfl))

/-! ## The decryption interceptor — error path (`catchError`)

`HttpErrorResponse` is modelled by its observable properties.  `status` and
`statusText` are `Json` values because `Object.assign` can overwrite them
with arbitrary payload fields; on a fresh transport error they are a number
and a string.  `topFields` holds the extra top-level properties added by the
merge. -/

structure ThrownError where
  status : Json
  statusText : Json
  headers : List (String × String)
  urlE : Option String
  errBody : Option Json
  topFields : List (String × Json)
deriving Repr

def lookupField (fs : List (String × Json)) (k : String) : Option Json :=
  (fs.find? (fun kv => kv.1 == k)).map (fun kv => kv.2)

def setField (fs : List (String × Json)) (k : String) (v : Json) :
    List (String × Json) :=
  match fs with
  | [] => [(k, v)]
  | kv :: t => if kv.1 = k then (k, v) :: t else kv :: setField t k v

/-- `Object.assign(decryptedError, decrypted)` projected onto the observable
properties: payload fields named `status`, `statusText` or `error` overwrite
the corresponding built-in property; every other field becomes a top-level
property.  (A non-object source contributes no named fields.) -/
def assignErr (e : ThrownError) (src : List (String × Json)) : ThrownError :=
  src.foldl (fun acc kv =>
    if kv.1 = "status" then { acc with status := kv.2 }
    else if kv.1 = "statusText" then { acc with statusText := kv.2 }
    else if kv.1 = "error" then { acc with errBody := some kv.2 }
    else { acc with topFields := setField acc.topFields kv.1 kv.2 }) e

/-- Reading property `k` of the (possibly merged) error object. -/
def errProp (e : ThrownError) (k : String) : Option Json :=
  if k = "status" then some e.status
  else if k = "statusText" then some e.statusText
  else if k = "error" then e.errBody
  else lookupField e.topFields k

/-- The `catchError` branch of `decryptionInterceptor` for 4xx/5xx
responses: the error ultimately thrown to the caller.  The decrypted body
replaces `error.error` and its fields are merged onto the top level; any
failure (missing/empty headers, falsy body, rejected decryption, falsy
decrypted value) rethrows the original error unchanged. -/
def decryptionErrorHandler (W : WebCryptoModel) (cfg : Option SecurityConfig)
    (reqUrl : String) (error : ThrownError) : ThrownError :=
  if cfgEnableEncryption cfg = some false then error
  else if matchesPattern reqUrl (encPatterns cfg) (skipPatternsOf cfg) = false then error
  else if pkEndpointHit cfg reqUrl then error
  else
    match headerFirst error.headers (aesHdrName cfg),
        headerFirst error.headers (ivHdrName cfg), error.errBody with
    | some aes, some iv, some body =>
      if aes = "" || iv = "" || !jsTruthy body then error
      else
        match decryptResponsePayload W
            (match body with | .jstr s => s | b => Json.stringify b) aes iv with
        | some d =>
          if jsTruthy d then
            assignErr
              { status := error.status, statusText := error.statusText,
                headers := error.headers, urlE := error.urlE,
                errBody := some d, topFields := [] }
              (match d with | .jobj fs => fs | _ => [])
          else error
        | none => error
    | _, _, _ => error


theorem lookupField_cons (kv : String × Json) (t : List (String × Json)) (k : String) :
    lookupField (kv :: t) k = if kv.1 = k then some kv.2 else lookupField t k := by
  rw [lookupField]
  by_cases h : kv.1 = k
  · rw [List.find?_cons_of_pos _ (by simp [h]), if_pos h]
    rfl
  · rw [List.find?_cons_of_neg _ (by simp [h]), if_neg h]
    rfl

theorem lookupField_setField_self (fs : List (String × Json)) (k : String) (v : Json) :
    lookupField (setField fs k v) k = some v := by
  induction fs with
  | nil => rw [setField, lookupField_cons]; simp
  | cons kv t ih =>
    rw [setField]
    split_ifs with h
    · rw [lookupField_cons]; simp
    · rw [lookupField_cons, if_neg h]
      exact ih

theorem lookupField_setField_other (fs : List (String × Json)) (k k2 : String)
    (v : Json) (h : k2 ≠ k) :
    lookupField (setField fs k v) k2 = lookupField fs k2 := by
  induction fs with
  | nil =>
    rw [setField, lookupField_cons, if_neg (Ne.symm h)]
  | cons kv t ih =>
    rw [setField]
    split_ifs with hk
    · rw [lookupField_cons, lookupField_cons, hk, if_neg (Ne.symm h), if_neg (Ne.symm h)]
    · rw [lookupField_cons, lookupField_cons, ih]

/-- A single `Object.assign` step only touches the property it names. -/
theorem errProp_assignStep (e : ThrownError) (k0 : String) (v0 : Json)
    (k : String) (h : k ≠ k0) :
    errProp (assignErr e [(k0, v0)]) k = errProp e k := by
  unfold assignErr errProp
  simp only [List.foldl]
  split_ifs with h1 h2 h3 <;>
    simp_all [lookupField_setField_other _ _ _ _ h]

/-- A single `Object.assign` step makes the property it names readable. -/
theorem errProp_assignStep_self (e : ThrownError) (k0 : String) (v0 : Json) :
    errProp (assignErr e [(k0, v0)]) k0 = some v0 := by
  unfold assignErr errProp
  simp only [List.foldl]
  split_ifs with h1 h2 h3 <;> simp_all [lookupField_setField_self]

theorem assignErr_cons (e : ThrownError) (kv : String × Json)
    (t : List (String × Json)) :
    assignErr e (kv :: t) = assignErr (assignErr e [kv]) t := by
  unfold assignErr
  simp [List.foldl]

/-- Assigning a list of fields none of which is named `k` leaves property
`k` unchanged. -/
theorem errProp_assignErr_notmem (src : List (String × Json)) (e : ThrownError)
    (k : String) (h : lookupField src k = none) :
    errProp (assignErr e src) k = errProp e k := by
  induction src generalizing e with
  | nil => rfl
  | cons kv t ih =>
    rw [lookupField_cons] at h
    split_ifs at h with hk
    rw [assignErr_cons, ih _ h]
    exact errProp_assignStep e kv.1 kv.2 k (fun hh => hk hh.symm)

/-- After `Object.assign`, every source field is readable at top level
(source keys distinct, as for any JS object). -/
theorem errProp_assignErr_found (src : List (String × Json)) (e : ThrownError)
    (k : String) (v : Json) (hnd : (src.map Prod.fst).Nodup)
    (hk : lookupField src k = some v) :
    errProp (assignErr e src) k = some v := by
  induction src generalizing e with
  | nil => simp [lookupField, List.find?] at hk
  | cons kv t ih =>
    rw [List.map_cons, List.nodup_cons] at hnd
    rw [lookupField_cons] at hk
    split_ifs at hk with hkk
    · injection hk with hk
      rw [assignErr_cons]
      have hknot : lookupField t k = none := by
        have hfind : List.find? (fun kv => kv.1 == k) t = none := by
          rw [List.find?_eq_none]
          intro x hx hb
          apply hnd.1
          have hx1 : x.1 = k := by simpa using hb
          rw [hkk, ← hx1]
          exact List.mem_map_of_mem Prod.fst hx
        rw [lookupField, hfind]
        rfl
      rw [errProp_assignErr_notmem t _ k hknot]
      subst hkk
      subst hk
      exact errProp_assignStep_self _ kv.1 kv.2
    · rw [assignErr_cons]
      exact ih _ hnd.2 hk


/-! ## Claim C8: error-response opening -/

/-- C8 (amended).  For error responses on a matching URL carrying both raw
key/IV headers and a non-empty error body:
(1) on successful decryption of an object payload, the thrown error's
top-level properties include every field of the decrypted payload (merged
onto the error object itself, not only nested under `.error`), and —
*provided the payload has no field named `status` or `statusText`* — the
original status and status-text are preserved (`Object.assign` overwrites
them otherwise; see the counterexample);
(2) if decryption fails, or the headers or body are absent, the original
unopened error propagates unchanged.
-/
theorem claim_C8_error_opening (W : WebCryptoModel) (cfg : Option SecurityConfig)
    (reqUrl : String) :
    (∀ error aes iv fs,
      cfgEnableEncryption cfg ≠ some false →
      matchesPattern reqUrl (encPatterns cfg) (skipPatternsOf cfg) = true →
      pkEndpointHit cfg reqUrl = false →
      headerFirst error.headers (aesHdrName cfg) = some aes → aes ≠ "" →
      headerFirst error.headers (ivHdrName cfg) = some iv → iv ≠ "" →
      (∃ body, error.errBody = some body ∧ jsTruthy body = true ∧
        decryptResponsePayload W
          (match body with | .jstr s => s | b => Json.stringify b) aes iv
          = some (Json.jobj fs)) →
      lookupField fs "status" = none → lookupField fs "statusText" = none →
      (fs.map Prod.fst).Nodup →
      (∀ k v, lookupField fs k = some v →
        errProp (decryptionErrorHandler W cfg reqUrl error) k = some v) ∧
      (decryptionErrorHandler W cfg reqUrl error).status = error.status ∧
      (decryptionErrorHandler W cfg reqUrl error).statusText = error.statusText) ∧
    (∀ error : ThrownError,
      (headerFirst error.headers (aesHdrName cfg) = none ∨
       headerFirst error.headers (ivHdrName cfg) = none ∨
       error.errBody = none ∨
       (∃ body aes iv, error.errBody = some body ∧
         headerFirst error.headers (aesHdrName cfg) = some aes ∧
         headerFirst error.headers (ivHdrName cfg) = some iv ∧
         decryptResponsePayload W
           (match body with | .jstr s => s | b => Json.stringify b) aes iv
           = none)) →
      decryptionErrorHandler W cfg reqUrl error = error) := by
  constructor
  · intro error aes iv fs h1 h2 h3 h4 h5 h6 h7 h8 h9 h10 h11
    obtain ⟨body, hb, hbt, hdec⟩ := h8
    have hred : decryptionErrorHandler W cfg reqUrl error =
        assignErr
          { status := error.status, statusText := error.statusText,
            headers := error.headers, urlE := error.urlE,
            errBody := some (Json.jobj fs), topFields := [] } fs := by
      unfold decryptionErrorHandler
      rw [if_neg h1, if_neg (by simp [h2]), if_neg (by simp [h3])]
      rw [h4, h6, hb]
      dsimp only []
      rw [if_neg (by simp [h5, h7, hbt]), hdec]
      rfl
    refine ⟨?_, ?_, ?_⟩
    · intro k v hk
      rw [hred]
      exact errProp_assignErr_found fs _ k v h11 hk
    · rw [hred]
      have hs := errProp_assignErr_notmem fs
        { status := error.status, statusText := error.statusText,
          headers := error.headers, urlE := error.urlE,
          errBody := some (Json.jobj fs), topFields := [] } "status" h9
      rw [show errProp _ "status" = some (assignErr
        { status := error.status, statusText := error.statusText,
          headers := error.headers, urlE := error.urlE,
          errBody := some (Json.jobj fs), topFields := [] } fs).status from rfl] at hs
      rw [show errProp
        { status := error.status, statusText := error.statusText,
          headers := error.headers, urlE := error.urlE,
          errBody := some (Json.jobj fs), topFields := [] } "status"
        = some error.status from rfl] at hs
      injection hs
    · rw [hred]
      have hs := errProp_assignErr_notmem fs
        { status := error.status, statusText := error.statusText,
          headers := error.headers, urlE := error.urlE,
          errBody := some (Json.jobj fs), topFields := [] } "statusText" h10
      rw [show errProp _ "statusText" = some (assignErr
        { status := error.status, statusText := error.statusText,
          headers := error.headers, urlE := error.urlE,
          errBody := some (Json.jobj fs), topFields := [] } fs).statusText from rfl] at hs
      rw [show errProp
        { status := error.status, statusText := error.statusText,
          headers := error.headers, urlE := error.urlE,
          errBody := some (Json.jobj fs), topFields := [] } "statusText"
        = some error.statusText from rfl] at hs
      injection hs
  · intro error hdisj
    unfold decryptionErrorHandler
    split_ifs with h1 h2 h3
    · rfl
    · rfl
    · rfl
    · rcases hA : headerFirst error.headers (aesHdrName cfg) with _ | aes
      · rfl
      · rcases hB : headerFirst error.headers (ivHdrName cfg) with _ | iv
        · rfl
        · rcases hEB : error.errBody with _ | body
          · rfl
          · rcases hdisj with h | h | h | ⟨body2, aes2, iv2, hb2, ha2, hi2, hd2⟩
            · rw [hA] at h; cases h
            · rw [hB] at h; cases h
            · rw [hEB] at h; cases h
            · rw [hA] at ha2
              rw [hB] at hi2
              rw [hEB] at hb2
              injection ha2 with ha2
              injection hi2 with hi2
              injection hb2 with hb2
              subst ha2
              subst hi2
              subst hb2
              dsimp only []
              by_cases htr : (aes = "" || iv = "" || !jsTruthy body) = true
              · rw [if_pos htr]
              · rw [if_neg htr, hd2]

/-- C8 (counterexample to the claim as stated).  A 400 error whose encrypted
body decrypts to `{"status": "h"}` has its `status` property overwritten by
the merge (`Object.assign`), so the original status is *not* preserved: the
thrown error's status is the payload string `"h"`, not `400`.
-/
theorem claim_C8_counterexample :
    (decryptionErrorHandler WId none "/api/x"
      { status := Json.jnum 400, statusText := Json.jstr "Bad Request",
        headers := [("X-Request-Context", "K"), ("X-Client-Ref", "I")],
        urlE := none,
        errBody := some (Json.jstr "\x7b\x22status\x22:\x22h\x22\x7d||p"),
        topFields := [] }).status = Json.jstr "h" ∧
    (decryptionErrorHandler WId none "/api/x"
      { status := Json.jnum 400, statusText := Json.jstr "Bad Request",
        headers := [("X-Request-Context", "K"), ("X-Client-Ref", "I")],
        urlE := none,
        errBody := some (Json.jstr "\x7b\x22status\x22:\x22h\x22\x7d||p"),
        topFields := [] }).errBody
      = some (Json.jobj [("status", Json.jstr "h")]) ∧
    Json.jstr "h" ≠ Json.jnum 400 := by
  refine ⟨rfl, rfl, fun h => Json.noConfusion h⟩

/-- Witness for `claim_C8_error_opening` at concrete inputs: a decrypted
`{"msg": "oops"}` error body surfaces `msg` at top level with status
preserved; an error without the headers propagates unchanged. -/
theorem claim_C8_error_opening_witness :
    (errProp (decryptionErrorHandler WId none "/api/x"
        { status := Json.jnum 400, statusText := Json.jstr "Bad Request",
          headers := [("X-Request-Context", "K"), ("X-Client-Ref", "I")],
          urlE := none,
          errBody := some (Json.jstr "\x7b\x22msg\x22:\x22oops\x22\x7d||p"),
          topFields := [] }) "msg" = some (Json.jstr "oops") ∧
      (decryptionErrorHandler WId none "/api/x"
        { status := Json.jnum 400, statusText := Json.jstr "Bad Request",
          headers := [("X-Request-Context", "K"), ("X-Client-Ref", "I")],
          urlE := none,
          errBody := some (Json.jstr "\x7b\x22msg\x22:\x22oops\x22\x7d||p"),
          topFields := [] }).status = Json.jnum 400) ∧
    decryptionErrorHandler WId none "/api/x"
      { status := Json.jnum 500, statusText := Json.jstr "Server Error",
        headers := [], urlE := none, errBody := some (Json.jstr "raw"),
        topFields := [] } =
      { status := Json.jnum 500, statusText := Json.jstr "Server Error",
        headers := [], urlE := none, errBody := some (Json.jstr "raw"),
        topFields := [] } := by
  have h1 := (claim_C8_error_opening WId none "/api/x").1
    { status := Json.jnum 400, statusText := Json.jstr "Bad Request",
      headers := [("X-Request-Context", "K"), ("X-Client-Ref", "I")],
      urlE := none,
      errBody := some (Json.jstr "\x7b\x22msg\x22:\x22oops\x22\x7d||p"),
      topFields := [] }
    "K" "I" [("msg", Json.jstr "oops")]
    (by intro h; cases h) rfl rfl rfl (by decide) rfl (by decide)
    ⟨Json.jstr "\x7b\x22msg\x22:\x22oops\x22\x7d||p", rfl, rfl, rfl⟩
    rfl rfl (by simp)
  have h2 := (claim_C8_error_opening WId none "/api/x").2
    { status := Json.jnum 500, statusText := Json.jstr "Server Error",
      headers := [], urlE := none, errBody := some (Json.jstr "raw"),
      topFields := [] }
    (Or.inl rfl)
  exact ⟨⟨h1.1 "msg" (Json.jstr "oops") rfl, h1.2.1⟩, h2⟩


/-! ## Key acquisition: rxjs retry/backoff (`fetchPublicKeyFromAPI`) -/

/-- `Math.pow(2, retryCount - 1) * 1000` — milliseconds of delay before the
`retryCount`-th retried attempt (`retryCount` is 1-based). -/
def retryDelayMs (retryCount : Nat) : Nat := 2 ^ (retryCount - 1) * 1000

/-- `config.publicKeyFetchRetries || 3` (JS `||`: a configured `0` is falsy
and also falls back to the default `3`). -/
def fetchRetryConfig (r : Option Nat) : Nat :=
  match r with
  | some n => if n = 0 then 3 else n
  | none => 3

/-- Trace of rxjs `retry({count, delay})` over a source that errors on every
subscription, with `remaining` retries left and `k` the index of the next
retry: (number of subscriptions made from here, delays inserted before each
retried attempt, in order). -/
def retryTraceGo : Nat → Nat → Nat × List Nat
  | 0, _ => (1, [])
  | Nat.succ r, k =>
    let t := retryTraceGo r (k + 1)
    (t.1 + 1, retryDelayMs k :: t.2)

/-- A full run of `fetchPublicKeyFromAPI`'s pipeline when the GET fails on
every attempt: total HTTP attempts made and the backoff delays. -/
def retryAllFailTrace (count : Nat) : Nat × List Nat := retryTraceGo count 1

theorem retryTraceGo_spec (r k : Nat) :
    retryTraceGo r k = (r + 1, (List.range r).map (fun i => retryDelayMs (k + i))) := by
  induction r generalizing k with
  | zero => rfl
  | succ r ih =>
    rw [retryTraceGo, ih]
    refine Prod.ext rfl ?_
    show retryDelayMs k :: (List.range r).map (fun i => retryDelayMs (k + 1 + i))
      = (List.range (r + 1)).map (fun i => retryDelayMs (k + i))
    rw [List.range_succ_eq_map, List.map_cons, List.map_map]
    refine congrArg₂ _ (by rw [Nat.add_zero]) ?_
    refine List.map_congr_left ?_
    intro i _
    show retryDelayMs (k + 1 + i) = retryDelayMs (k + (i + 1))
    ring_nf

theorem retryTrace_chain (r k : Nat) : List.Chain' (· ≤ ·) (retryTraceGo r k).2 := by
  induction r generalizing k with
  | zero => simp [retryTraceGo]
  | succ r ih =>
    rw [retryTraceGo]
    rcases r with _ | r2
    · simp [retryTraceGo]
    · rw [List.chain'_cons']
      refine ⟨?_, ih (k + 1)⟩
      intro h hh
      rw [show (retryTraceGo (r2 + 1) (k + 1)).2.head?
        = some (retryDelayMs (k + 1)) from rfl] at hh
      injection hh with hh
      subst hh
      unfold retryDelayMs
      have : 2 ^ (k - 1) ≤ 2 ^ (k + 1 - 1) :=
        Nat.pow_le_pow_right (by omega) (by omega)
      omega

/-! ## Claim C3: retry count and backoff -/

/-- C3 (counterexample to the claim as stated).  With the configured retry count
`N = 3` and a fetch that fails on every attempt, the rxjs pipeline makes
`3 + 1 = 4` HTTP GET attempts (the initial subscription plus `N` retries),
not exactly `N = 3`.
-/
theorem claim_C3_counterexample :
    (retryAllFailTrace (fetchRetryConfig (some 3))).1 = 4 ∧ (4 : Nat) ≠ 3 :=
  ⟨rfl, by decide⟩

/-- C3 (amended).  With configured retry count `N` (`0`/absent falls back to the
default `3`) and a remote key fetch that fails on every attempt, exactly
`N + 1` HTTP GET attempts are made (one initial attempt plus `N` retries)
before the terminal failure is surfaced; the delay before the `k`-th retried
attempt (1-based, list index `i = k - 1`) is `2^(k-1)` seconds
(`2^i * 1000` ms), hence the inter-attempt delays are monotonically
non-decreasing.
-/
theorem claim_C3_retry_backoff (cfgRetries : Option Nat) :
    (retryAllFailTrace (fetchRetryConfig cfgRetries)).1
      = fetchRetryConfig cfgRetries + 1 ∧
    (∀ i, i < fetchRetryConfig cfgRetries →
      (retryAllFailTrace (fetchRetryConfig cfgRetries)).2.get? i
        = some (2 ^ i * 1000)) ∧
    List.Chain' (· ≤ ·) (retryAllFailTrace (fetchRetryConfig cfgRetries)).2 := by
  refine ⟨?_, ?_, retryTrace_chain _ 1⟩
  · rw [retryAllFailTrace, retryTraceGo_spec]
  · intro i hi
    rw [retryAllFailTrace, retryTraceGo_spec]
    show ((List.range (fetchRetryConfig cfgRetries)).map
      (fun i => retryDelayMs (1 + i))).get? i = some (2 ^ i * 1000)
    rw [List.get?_map, List.get?_range hi]
    show some (retryDelayMs (1 + i)) = some (2 ^ i * 1000)
    unfold retryDelayMs
    rw [show 1 + i - 1 = i by omega]

/-- Witness for `claim_C3_retry_backoff` at `N = 2`. -/
theorem claim_C3_retry_backoff_witness :
    (retryAllFailTrace (fetchRetryConfig (some 2))).1 = 3 ∧
    (retryAllFailTrace (fetchRetryConfig (some 2))).2.get? 0 = some 1000 :=
  ⟨(claim_C3_retry_backoff (some 2)).1,
   (claim_C3_retry_backoff (some 2)).2.1 0 (by decide)⟩

/-! ## The initializer: cache / validate / fetch control flow -/

inductive FetchResult where
  | ok (pem : String) : FetchResult
  | fail : FetchResult
deriving Repr, DecidableEq

/-- Observable outcome of one initializer run: success flag, final cache
contents (`sessionStorage`), active key (identified by its PEM), whether a
remote fetch was attempted, and the cache contents at the moment the fetch
started (meaningful only when `fetched = true`). -/
structure InitOutcome where
  ok : Bool
  cache : Option String
  activeKey : Option String
  fetched : Bool
  cacheAtFetch : Option String
deriving Repr, DecidableEq

/-- `validateAndSetPublicKey`: verify the pinned hash, import the PEM
(`importOk` abstracts `importPublicKey`, which throws on malformed input),
then `setPublicKey(key, pem)` — which also writes the PEM to the session
cache.  `none` models the rejected promise.  Returns (new cache contents,
active PEM). -/
def validateAndSetPublicKey (sha256 : String → List Nat)
    (importOk : String → Bool) (expectedHash : Option String) (pem : String) :
    Option (Option String × String) :=
  if verifyPublicKeyHash sha256 expectedHash pem = false then none
  else if importOk pem = false then none
  else some (some pem, pem)

/-- `fetchPublicKeyFromAPI` followed by validation: `fetchR` is the overall
outcome of the GET-with-retries (`fail` covers exhausted retries and the
missing-header contract error).  Returns (success, cache, active key). -/
def fetchNewKeyFlow (sha256 : String → List Nat) (importOk : String → Bool)
    (expectedHash : Option String) (fetchR : FetchResult)
    (cache : Option String) : Bool × Option String × Option String :=
  match fetchR with
  | .fail => (false, cache, none)
  | .ok pem =>
    match validateAndSetPublicKey sha256 importOk expectedHash pem with
    | some (c2, act) => (true, c2, some act)
    | none => (false, cache, none)

/-- The remote branch of `initializeNgSecureFetchFactory` (config without a
direct `publicKey`): validate the cached PEM first if present; on any
validation failure of the cached key, evict the cache
(`clearCachedPublicKey`) and only then fetch fresh; on a cache miss, fetch
directly. -/
def initRemoteFlow (sha256 : String → List Nat) (importOk : String → Bool)
    (expectedHash : Option String) (cache0 : Option String)
    (fetchR : FetchResult) : InitOutcome :=
  match cache0 with
  | some cachedPem =>
    match validateAndSetPublicKey sha256 importOk expectedHash cachedPem with
    | some (c2, act) =>
      { ok := true, cache := c2, activeKey := some act,
        fetched := false, cacheAtFetch := none }
    | none =>
      let r := fetchNewKeyFlow sha256 importOk expectedHash fetchR none
      { ok := r.1, cache := r.2.1, activeKey := r.2.2,
        fetched := true, cacheAtFetch := none }
  | none =>
    let r := fetchNewKeyFlow sha256 importOk expectedHash fetchR cache0
    { ok := r.1, cache := r.2.1, activeKey := r.2.2,
      fetched := true, cacheAtFetch := cache0 }

/-! ## Claim C7: cache lifecycle invariant -/

theorem validateAndSet_ok_shape (sha256 : String → List Nat)
    (importOk : String → Bool) (expectedHash : Option String) (pem : String)
    (c2 : Option String) (act : String)
    (hval : validateAndSetPublicKey sha256 importOk expectedHash pem
      = some (c2, act)) :
    c2 = some pem ∧ act = pem := by
  unfold validateAndSetPublicKey at hval
  split_ifs at hval
  simp only [Option.some.injEq, Prod.mk.injEq] at hval
  exact ⟨hval.1.symm, hval.2.symm⟩

theorem initRemoteFlow_miss_fail (sha256 : String → List Nat)
    (importOk : String → Bool) (expectedHash : Option String) (pem : String)
    (hval : validateAndSetPublicKey sha256 importOk expectedHash pem = none) :
    initRemoteFlow sha256 importOk expectedHash none (.ok pem) =
      { ok := false, cache := none, activeKey := none,
        fetched := true, cacheAtFetch := none } := by
  unfold initRemoteFlow fetchNewKeyFlow
  dsimp only []
  rw [hval]

theorem initRemoteFlow_miss_ok (sha256 : String → List Nat)
    (importOk : String → Bool) (expectedHash : Option String) (pem : String)
    (c2 : Option String) (act : String)
    (hval : validateAndSetPublicKey sha256 importOk expectedHash pem
      = some (c2, act)) :
    initRemoteFlow sha256 importOk expectedHash none (.ok pem) =
      { ok := true, cache := c2, activeKey := some act,
        fetched := true, cacheAtFetch := none } := by
  unfold initRemoteFlow fetchNewKeyFlow
  dsimp only []
  rw [hval]

theorem initRemoteFlow_hit_ok (sha256 : String → List Nat)
    (importOk : String → Bool) (expectedHash : Option String)
    (cachedPem : String) (fetchR : FetchResult) (c2 : Option String)
    (act : String)
    (hcv : validateAndSetPublicKey sha256 importOk expectedHash cachedPem
      = some (c2, act)) :
    initRemoteFlow sha256 importOk expectedHash (some cachedPem) fetchR =
      { ok := true, cache := c2, activeKey := some act,
        fetched := false, cacheAtFetch := none } := by
  unfold initRemoteFlow
  dsimp only []
  rw [hcv]

theorem initRemoteFlow_hit_fail (sha256 : String → List Nat)
    (importOk : String → Bool) (expectedHash : Option String)
    (cachedPem : String) (fetchR : FetchResult)
    (hcv : validateAndSetPublicKey sha256 importOk expectedHash cachedPem
      = none) :
    initRemoteFlow sha256 importOk expectedHash (some cachedPem) fetchR =
      (let r := fetchNewKeyFlow sha256 importOk expectedHash fetchR none
       { ok := r.1, cache := r.2.1, activeKey := r.2.2,
         fetched := true, cacheAtFetch := none }) := by
  unfold initRemoteFlow
  dsimp only []
  rw [hcv]

/-- C7.  (1) When a remote fetch is attempted and the run succeeds — the fetch
delivered a PEM that passed hash validation and import — the session cache
contains exactly the validated PEM (which is also the active key).
(2) After any validation failure of a cache-sourced key (hash mismatch
or failed import), the cache entry has been evicted before the fresh remote
fetch is attempted: a fetch happens and the cache is empty at that point.
-/
theorem claim_C7_cache_lifecycle (sha256 : String → List Nat)
    (importOk : String → Bool) (expectedHash : Option String)
    (cache0 : Option String) (fetchR : FetchResult) :
    (∀ pem, fetchR = .ok pem →
      (initRemoteFlow sha256 importOk expectedHash cache0 fetchR).fetched = true →
      (initRemoteFlow sha256 importOk expectedHash cache0 fetchR).ok = true →
      (initRemoteFlow sha256 importOk expectedHash cache0 fetchR).cache = some pem ∧
      (initRemoteFlow sha256 importOk expectedHash cache0 fetchR).activeKey
        = some pem) ∧
    (∀ cachedPem, cache0 = some cachedPem →
      (verifyPublicKeyHash sha256 expectedHash cachedPem = false ∨
        importOk cachedPem = false) →
      (initRemoteFlow sha256 importOk expectedHash cache0 fetchR).fetched = true ∧
      (initRemoteFlow sha256 importOk expectedHash cache0 fetchR).cacheAtFetch
        = none) := by
  constructor
  · intro pem hfr hfetched hok
    subst hfr
    rcases cache0 with _ | cachedPem
    · rcases hval : validateAndSetPublicKey sha256 importOk expectedHash pem with
        _ | ⟨c2, act⟩
      · rw [initRemoteFlow_miss_fail sha256 importOk expectedHash pem hval] at hok
        cases hok
      · obtain ⟨hc, ha⟩ :=
          validateAndSet_ok_shape sha256 importOk expectedHash pem c2 act hval
        rw [initRemoteFlow_miss_ok sha256 importOk expectedHash pem c2 act hval]
        exact ⟨by rw [hc], by rw [ha]⟩
    · rcases hcv : validateAndSetPublicKey sha256 importOk expectedHash cachedPem
        with _ | ⟨c2, act⟩
      · rcases hval : validateAndSetPublicKey sha256 importOk expectedHash pem with
          _ | ⟨c3, act3⟩
        · rw [initRemoteFlow_hit_fail sha256 importOk expectedHash cachedPem _ hcv]
            at hok
          unfold fetchNewKeyFlow at hok
          dsimp only [] at hok
          rw [hval] at hok
          cases hok
        · obtain ⟨hc, ha⟩ :=
            validateAndSet_ok_shape sha256 importOk expectedHash pem c3 act3 hval
          rw [initRemoteFlow_hit_fail sha256 importOk expectedHash cachedPem _ hcv]
          unfold fetchNewKeyFlow
          dsimp only []
          rw [hval]
          exact ⟨by rw [hc], by rw [ha]⟩
      · rw [initRemoteFlow_hit_ok sha256 importOk expectedHash cachedPem _ c2 act hcv]
          at hfetched
        cases hfetched
  · intro cachedPem hc hfail
    subst hc
    have hval : validateAndSetPublicKey sha256 importOk expectedHash cachedPem
        = none := by
      unfold validateAndSetPublicKey
      rcases hfail with h | h
      · rw [if_pos h]
      · by_cases hv : verifyPublicKeyHash sha256 expectedHash cachedPem = false
        · rw [if_pos hv]
        · rw [if_neg hv, if_pos h]
    rw [initRemoteFlow_hit_fail sha256 importOk expectedHash cachedPem _ hval]
    exact ⟨rfl, rfl⟩

/-- Witness for `claim_C7_cache_lifecycle`: a digest primitive that maps
`"PEM"` to byte `0xaa` (pin `"aa"` configured) — the fetched key validates
and is cached; a cached `"BAD"` key fails validation, forcing an evict-then-
fetch. -/
theorem claim_C7_cache_lifecycle_witness :
    ((initRemoteFlow (fun s => if s = "PEM" then [170] else [0]) (fun _ => true)
        (some "aa") none (.ok "PEM")).cache = some "PEM" ∧
      (initRemoteFlow (fun s => if s = "PEM" then [170] else [0]) (fun _ => true)
        (some "aa") none (.ok "PEM")).activeKey = some "PEM") ∧
    ((initRemoteFlow (fun s => if s = "PEM" then [170] else [0]) (fun _ => true)
        (some "aa") (some "BAD") (.ok "PEM")).fetched = true ∧
      (initRemoteFlow (fun s => if s = "PEM" then [170] else [0]) (fun _ => true)
        (some "aa") (some "BAD") (.ok "PEM")).cacheAtFetch = none) :=
  ⟨(claim_C7_cache_lifecycle (fun s => if s = "PEM" then [170] else [0])
      (fun _ => true) (some "aa") none (.ok "PEM")).1 "PEM" rfl rfl (by decide),
   (claim_C7_cache_lifecycle (fun s => if s = "PEM" then [170] else [0])
      (fun _ => true) (some "aa") (some "BAD") (.ok "PEM")).2 "BAD" rfl
      (Or.inl (by decide))⟩

/-! ## Claim C5: skip precedence -/

/-- C5.  For every URL, include-pattern list and skip-pattern list, if any
skip-pattern matches the URL (under the shared per-pattern rule), then
`matchesPattern` returns false — independently of whether any
include-pattern also matches.
-/
theorem claim_C5_skip_precedence (url : String) (patterns sps : List String)
    (h : sps.any (fun p => patternTest url p) = true) :
    matchesPattern url patterns (some sps) = false := by
  unfold matchesPattern
  have hne : 0 < sps.length := by
    cases sps with
    | nil => simp at h
    | cons a t => simp
  simp [h, hne]

/-- Witness for `claim_C5_skip_precedence`: `include = ['*']`,
`skip = ['/v1/public/*']`, `url = '/v1/public/data'` — skipped although the
include pattern matches everything. -/
theorem claim_C5_skip_precedence_witness :
    matchesPattern "/v1/public/data" ["*"] (some ["/v1/public/*"]) = false :=
  claim_C5_skip_precedence "/v1/public/data" ["*"] ["/v1/public/*"] (by rfl)

/-! ## Claim C6: per-pattern matching semantics -/

/-- C6.  With a single include pattern and no skip patterns, `matchesPattern`
is exactly the per-pattern case ladder: `'*'` always matches; a pattern
ending in `'/*'` matches iff the URL contains the pattern with the trailing
`'/*'` stripped; a pattern containing `'{ignore}'` matches iff the regex
obtained by escaping the literal portions and replacing each placeholder
independently with `[^/]+` (one or more non-separator characters) matches
somewhere in the URL; otherwise plain substring containment.  An empty
include list (no `'*'`) never matches.
-/
theorem claim_C6_pattern_semantics :
    (∀ url p, matchesPattern url [p] (some []) =
      (if p = "*" then true
       else if endsWithSlashStar p.data then
         containsSub (p.data.dropLast.dropLast) url.data
       else if containsSub ("{ignore}".data) p.data then
         reSearch ((p.splitOn "{ignore}").map String.data) url.data
       else containsSub p.data url.data)) ∧
    (∀ url, matchesPattern url [] (some []) = false) := by
  constructor
  · intro url p
    show matchesPattern url [p] (some []) = patternTest url p
    unfold matchesPattern
    simp
  · intro url
    rfl

end NgSecureFetch
